import Mathlib

/-!
Verification of the rotary-selector interaction engine of the
`dreamjourney` repository (`src/app/zoom-experience.tsx`).

The TypeScript component is shallowly embedded below.  JavaScript numbers
are modelled as real numbers; the JavaScript remainder operator `%`
(truncating) is modelled by `jsMod` / `Int.tmod`, `Math.floor` by
`Int.floor`, `Math.round` by `round` (both round half toward positive
infinity), and `Math.atan2` by the argument of a complex number.
React state cells become fields of explicit state structures, and each
event handler / effect becomes a function from state to state.  Audio
side effects (`playTick`) are abstracted to a counter of fired events, and
asynchronous fetch/decode outcomes are passed as explicit `Option` values.
-/

namespace DreamJourney

open Real

/-! ## Constants (source lines 17-44) -/

noncomputable section

def ROTATION_EASING : ℝ := 0.12

def SNAP_THRESHOLD : ℝ := 0.1

def CLICKS_PER_FULL_CIRCLE : ℕ := 24

def MIN_PLAYBACK_RATE : ℝ := 1 / 2

def MAX_PLAYBACK_RATE : ℝ := 2.0

def MIDDLE_PLAYBACK_RATE : ℝ := 1.0

def QUADRATIC_A : ℝ := 1.0

def QUADRATIC_B : ℝ := 0.5

/-! ## JavaScript numeric primitives -/

/-- Truncation toward zero, as used by the JavaScript remainder operator. -/
def jsTrunc (x : ℝ) : ℤ := if 0 ≤ x then ⌊x⌋ else ⌈x⌉

/-- JavaScript `a % n` on numbers: remainder with the sign of the dividend. -/
def jsMod (a n : ℝ) : ℝ := a - n * (jsTrunc (a / n) : ℝ)

/-- The normalization idiom `((x % (2*Math.PI)) + 2*Math.PI) % (2*Math.PI)`
appearing at source lines 572-573, 595-596, 789-793, 868-869. -/
def normalize2pi (x : ℝ) : ℝ := jsMod (jsMod x (2 * π) + 2 * π) (2 * π)

/-! ## Ring geometry and selection (source lines 301-309, 592-604, 1033-1042) -/

/-- Source lines 301-304: `imageSets.length > 0 ? 2π / length : 0`. -/
def anglePerItem (n : ℕ) : ℝ := if 0 < n then 2 * π / n else 0

/-- Source lines 306-309. -/
def anglePerClick : ℝ := 2 * π / CLICKS_PER_FULL_CIRCLE

/-- Source lines 592-604: index of the item at the bottom position, computed
from `ringRotation`; `n` is `imageSets.length`.  The final JavaScript
expression `((rawIndex % len) + len) % len` uses the truncating `%`. -/
def selectedIndex (n : ℕ) (ringRotation : ℝ) : ℤ :=
  if n = 0 then 0
  else
    let normalizedRotation := normalize2pi ringRotation
    let rawIndex : ℤ := round (normalizedRotation / anglePerItem n)
    (rawIndex.tmod n + n).tmod n

/-- Source lines 1033-1042: same projection applied to `targetRotation`. -/
def finalSelectedIndex (n : ℕ) (targetRotation : ℝ) : ℤ :=
  if n = 0 then 0
  else
    let normalizedRotation := normalize2pi targetRotation
    let rawIndex : ℤ := round (normalizedRotation / anglePerItem n)
    (rawIndex.tmod n + n).tmod n

/-! ## Tick audio synchronizer (source lines 566-589, 607-623) -/

/-- Source lines 571-574: click-boundary index of a rotation value. -/
def clickIndex (rotation : ℝ) : ℤ :=
  ⌊normalize2pi (rotation - π / 2) / anglePerClick⌋

/-- Auxiliary (not in the source): the boundary index without the mod-2π
wrap, used to count crossings. -/
def unboundedClickIndex (rotation : ℝ) : ℤ :=
  ⌊(rotation - π / 2) / anglePerClick⌋

/-- State of the tick synchronizer: `lastClickIndexRef` plus a counter of
`playTick` invocations (the audio side effect is abstracted to the count
of fired tick events). -/
structure TickState where
  lastClickIndex : Option ℤ
  ticksPlayed : ℕ

/-- Source lines 566-589: update `lastClickIndexRef` unconditionally and
fire one tick event when the click index changed (and the previous index
was initialized). -/
def checkAndPlayTick (rotation : ℝ) (s : TickState) : TickState :=
  let currentClickIndex := clickIndex rotation
  match s.lastClickIndex with
  | none => { lastClickIndex := some currentClickIndex, ticksPlayed := s.ticksPlayed }
  | some prevIndex =>
      { lastClickIndex := some currentClickIndex,
        ticksPlayed := if currentClickIndex ≠ prevIndex then s.ticksPlayed + 1 else s.ticksPlayed }

/-- Run the tick check over a sequence of animated rotation values, as the
animation loop (source lines 607-623) does once per frame. -/
def runTicks (s : TickState) (rotations : List ℝ) : TickState :=
  rotations.foldl (fun st r => checkAndPlayTick r st) s

/-- Source lines 608-618: one easing step of the animation loop.
`animateStep target prev` is the new `ringRotation`. -/
def animateStep (targetRotation prev : ℝ) : ℝ :=
  let diff := targetRotation - prev
  if |diff| < 0.001 then targetRotation else prev + diff * ROTATION_EASING

/-! ## Playback-rate mapper (source lines 501-525) -/

/-- Music-voice slice of the audio state used by `updatePlaybackRate`:
the active voice's playback rate (`none` when no voice is active), the
mute flag, and `zoomRangeRef`. -/
structure AudioPlayState where
  bgMusicRate : Option ℝ
  isMuted : Bool
  zoomRange : Option (ℝ × ℝ)

/-- Source lines 508-511: normalize the zoom exponent to the declared
range, with midpoint 0.5 when the range is degenerate. -/
def normalizeZoom (zoomExponent zmin zmax : ℝ) : ℝ :=
  if zmax = zmin then 0.5 else (zoomExponent - zmin) / (zmax - zmin)

/-- Source lines 516-519: the quadratic playback-rate map. -/
def playbackRateOf (normalized : ℝ) : ℝ :=
  QUADRATIC_A * normalized * normalized + QUADRATIC_B * normalized + MIN_PLAYBACK_RATE

/-- Source lines 501-525: store the zoom range, then update the active
voice's playback rate unless there is no voice or audio is muted. -/
def updatePlaybackRate (zoomExponent : ℝ) (zoomRange : ℝ × ℝ) (s : AudioPlayState) : AudioPlayState :=
  let s1 : AudioPlayState := { s with zoomRange := some zoomRange }
  match s1.bgMusicRate with
  | none => s1
  | some _ =>
      if s1.isMuted then s1
      else
        { s1 with
          bgMusicRate :=
            some (playbackRateOf (normalizeZoom zoomExponent zoomRange.1 zoomRange.2)) }

end

/-! ## Audio initialization (source lines 335-370) -/

/-- Audio-engine state touched by `initializeAudio`.  Decoded audio
buffers are abstracted to natural-number handles. -/
structure AudioInitState where
  audioReady : Bool
  hasContext : Bool
  tickBuffer : Option ℕ
  musicBuffer : Option ℕ
  deriving DecidableEq, Repr

/-- Source lines 335-370.  The outcomes of the two asynchronous
fetch+decode operations are passed explicitly (`none` means the fetch or
decode threw).  The tick load sits directly in the outer `try`, so a tick
failure jumps to the outer `catch` (which only sets `audioReady`); the
music load has its own inner `try` whose failures are swallowed.
Context creation is assumed to succeed (it is not asset-dependent). -/
def initializeAudio (tickResult musicResult : Option ℕ) (s : AudioInitState) : AudioInitState :=
  if s.audioReady then s
  else
    let s1 : AudioInitState := { s with hasContext := true }
    let afterTick : Option AudioInitState :=
      if s1.tickBuffer = none then
        match tickResult with
        | none => none
        | some b => some { s1 with tickBuffer := some b }
      else some s1
    match afterTick with
    | none => { s1 with audioReady := true }
    | some s2 =>
        let s3 : AudioInitState :=
          if s2.musicBuffer = none then
            match musicResult with
            | none => s2
            | some m => { s2 with musicBuffer := some m }
          else s2
        { s3 with audioReady := true }

/-! ## Transition state machine (source lines 1018-1030, 1105-1135, 1143-1159) -/

inductive FadePhase where
  | idle
  | loading
  | fadingToBlack
  | holding
  | fadingOut
  deriving DecidableEq, Repr

/-- Transition-machine slice of the component state. -/
structure TransState where
  fadePhase : FadePhase
  pendingSet : Option String
  activeSet : String
  highlightSet : String
  revealReady : Bool
  deriving DecidableEq, Repr

/-- Source lines 1018-1030: begin a transition unless one is in flight or
the target is already active. -/
def startTransition (target : String) (s : TransState) : TransState :=
  if s.fadePhase ≠ FadePhase.idle ∨ target = s.activeSet then s
  else
    { s with
      pendingSet := some target
      highlightSet := target
      revealReady := false
      fadePhase := FadePhase.loading }

/-- Events driving the transition machine: a `startTransition` request,
completion of the image preload (source lines 1143-1159), and the three
phase timers (source lines 1105-1135).  The `holding` effect swaps
`activeSet := pendingSet` synchronously when the phase becomes `holding`,
so the swap is modelled atomically with the `fadingToBlack` timer that
enters `holding`. -/
inductive TransEvent where
  | startRequest (target : String)
  | preloadDone
  | fadeToBlackTimer
  | holdTimer
  | fadeOutTimer

def transStep (e : TransEvent) (s : TransState) : TransState :=
  match e with
  | TransEvent.startRequest target => startTransition target s
  | TransEvent.preloadDone =>
      if s.fadePhase = FadePhase.loading ∧ s.pendingSet ≠ none then
        { s with revealReady := true, fadePhase := FadePhase.fadingToBlack }
      else s
  | TransEvent.fadeToBlackTimer =>
      if s.fadePhase = FadePhase.fadingToBlack then
        match s.pendingSet with
        | some t => { s with fadePhase := FadePhase.holding, activeSet := t, pendingSet := none }
        | none => { s with fadePhase := FadePhase.holding }
      else s
  | TransEvent.holdTimer =>
      if s.fadePhase = FadePhase.holding then { s with fadePhase := FadePhase.fadingOut } else s
  | TransEvent.fadeOutTimer =>
      if s.fadePhase = FadePhase.fadingOut then
        { s with fadePhase := FadePhase.idle, revealReady := false }
      else s

/-- Mount-time state (source lines 181-187): idle, nothing pending, the
resolved initial set both active and highlighted. -/
def initialTransState (initial : String) : TransState :=
  { fadePhase := FadePhase.idle
    pendingSet := none
    activeSet := initial
    highlightSet := initial
    revealReady := false }

/-- States reachable from the mount-time state by transition events. -/
inductive ReachableTrans (initial : String) : TransState → Prop where
  | init : ReachableTrans initial (initialTransState initial)
  | step (e : TransEvent) (s : TransState) :
      ReachableTrans initial s → ReachableTrans initial (transStep e s)

/-! ## Transition trigger effect (source lines 1044-1052, 1056-1103) -/

noncomputable section

/-- Source lines 1044-1052: the settle check between `targetRotation` and
`ringRotation` (threshold 0.01 desktop / 0.02 mobile). -/
def isRotationSettled (targetRotation ringRotation threshold : ℝ) : Prop :=
  min (|targetRotation - ringRotation|) (2 * π - |targetRotation - ringRotation|) < threshold

noncomputable instance (a b c : ℝ) : Decidable (isRotationSettled a b c) := by
  unfold isRotationSettled
  infer_instance

/-- State touched by the transition-trigger effect: the transition slice
plus `dragStartIndexRef`. -/
structure TriggerState where
  trans : TransState
  dragStartIndex : Option ℤ

/-- Source lines 1056-1103: the effect that decides whether to start a
transition.  `setNames` is `imageSets.map (·.name)`; indexing a list of
names stands for indexing `imageSets` and reading `.name`. -/
def triggerEffect (isDragging : Bool) (setNames : List String)
    (ringRotation targetRotation threshold : ℝ) (ts : TriggerState) : TriggerState :=
  if isDragging then ts
  else
    match ts.dragStartIndex with
    | some dragStart =>
        if ¬ isRotationSettled targetRotation ringRotation threshold then ts
        else
          let n : ℤ := setNames.length
          let normalizedStartIndex := (dragStart.tmod n + n).tmod n
          let finalIdx := finalSelectedIndex setNames.length targetRotation
          let normalizedFinalIndex := (finalIdx.tmod n + n).tmod n
          if normalizedStartIndex = normalizedFinalIndex then
            { ts with dragStartIndex := none }
          else
            match setNames.get? finalIdx.toNat with
            | some name =>
                if name ≠ ts.trans.highlightSet then
                  { trans := startTransition name ts.trans, dragStartIndex := none }
                else ts
            | none => ts
    | none =>
        let sel := selectedIndex setNames.length ringRotation
        match setNames.get? sel.toNat with
        | some name =>
            if name ≠ ts.trans.highlightSet then
              { ts with trans := startTransition name ts.trans }
            else ts
        | none => ts

/-! ## Gesture handling (source lines 640-646, 704-833) -/

/-- JavaScript `Math.atan2 y x`, with value in `(-π, π]`. -/
def jsAtan2 (y x : ℝ) : ℝ := Complex.arg ⟨x, y⟩

/-- Source lines 640-646: angle from the ring center to the pointer. -/
def getPointerAngle (centerX centerY clientX clientY : ℝ) : ℝ :=
  jsAtan2 (clientY - centerY) (clientX - centerX)

/-- Payload of `clickStartRef` (source lines 248-250). -/
structure ClickStart where
  x : ℝ
  y : ℝ
  index : ℕ

/-- Gesture-session slice of the component state: `isDragging`,
`dragStartRef` (its `lastAngle`), `clickStartRef`, `targetRotation`. -/
structure GestureState where
  isDragging : Bool
  dragLastAngle : Option ℝ
  clickStart : Option ClickStart
  targetRotation : ℝ

/-- Source lines 746-774: displacement check against the gesture start,
angular delta wrapped into `[-π, π]`, rotation follows the finger. -/
def handlePointerMove (centerX centerY clientX clientY : ℝ) (s : GestureState) : GestureState :=
  match s.isDragging, s.dragLastAngle with
  | true, some lastAngle =>
      let clickStart1 : Option ClickStart :=
        match s.clickStart with
        | some cs =>
            let dx := clientX - cs.x
            let dy := clientY - cs.y
            if Real.sqrt (dx * dx + dy * dy) > 5 then none else some cs
        | none => none
      let currentAngle := getPointerAngle centerX centerY clientX clientY
      let delta0 := currentAngle - lastAngle
      let delta1 := if delta0 > π then delta0 - 2 * π else delta0
      let delta := if delta1 < -π then delta1 + 2 * π else delta1
      { isDragging := true
        dragLastAngle := some currentAngle
        clickStart := clickStart1
        targetRotation := s.targetRotation - delta }
  | _, _ => s

/-- A sequence of pointer-move events applied in order. -/
def runMoves (centerX centerY : ℝ) (s : GestureState) (moves : List (ℝ × ℝ)) : GestureState :=
  moves.foldl (fun st m => handlePointerMove centerX centerY m.1 m.2 st) s

/-- Source lines 788-801: difference between the clicked item's normalized
angle and the normalized `targetRotation`, wrapped into `[-π, π]`
(before the 180-degree tie-break). -/
def clickDiffRaw (targetRotation : ℝ) (clickedIndex : ℕ) (api : ℝ) : ℝ :=
  let targetRotationForIndex : ℝ := clickedIndex * api
  let currentNormalized := normalize2pi targetRotation
  let targetNormalized := normalize2pi targetRotationForIndex
  let diff := targetNormalized - currentNormalized
  if diff > π then diff - 2 * π else if diff < -π then diff + 2 * π else diff

/-- Source lines 788-806: the applied rotation delta for a click,
including the tie-break `if |(|diff|) - π| < 0.001 then diff = π`. -/
def clickDiff (targetRotation : ℝ) (clickedIndex : ℕ) (api : ℝ) : ℝ :=
  let diff := clickDiffRaw targetRotation clickedIndex api
  if |(|diff| - π)| < 0.001 then π else diff

/-- Source lines 777-833: pointer-up.  Click path (rotate to the clicked
item) when a click start survives and the dial is visible; otherwise snap
`targetRotation` to the nearest multiple of `api`; then end the session. -/
def handlePointerUp (isHovered isSelectedCircleHovered showRingAfterStart : Bool)
    (api : ℝ) (s : GestureState) : GestureState :=
  if s.isDragging = false then s
  else
    let isDialVisible := isHovered || isSelectedCircleHovered || showRingAfterStart
    let s1 : GestureState :=
      match s.clickStart with
      | some cs =>
          if isDialVisible then
            { s with targetRotation := s.targetRotation + clickDiff s.targetRotation cs.index api }
          else
            { s with targetRotation := ((round (s.targetRotation / api) : ℤ) : ℝ) * api }
      | none => { s with targetRotation := ((round (s.targetRotation / api) : ℤ) : ℝ) * api }
    { s1 with isDragging := false, dragLastAngle := none, clickStart := none }

end

/-! ## Basic facts about the JavaScript normalization idiom -/

lemma two_pi_pos : (0 : ℝ) < 2 * π := by positivity

lemma jsMod_of_nonneg {a n : ℝ} (hn : 0 < n) (ha : 0 ≤ a) :
    jsMod a n = a - n * ⌊a / n⌋ := by
  unfold jsMod jsTrunc
  rw [if_pos (div_nonneg ha hn.le)]

lemma jsMod_of_neg {a n : ℝ} (hn : 0 < n) (ha : a < 0) :
    jsMod a n = a - n * ⌈a / n⌉ := by
  unfold jsMod jsTrunc
  rw [if_neg (not_le.mpr (div_neg_of_neg_of_pos ha hn))]

lemma sub_floor_bounds (a : ℝ) {n : ℝ} (hn : 0 < n) :
    0 ≤ a - n * ⌊a / n⌋ ∧ a - n * ⌊a / n⌋ < n := by
  constructor
  · have h := Int.sub_floor_div_mul_nonneg a hn
    linarith [h]
  · have h := Int.sub_floor_div_mul_lt a hn
    linarith [h]

/-- The double-`%` normalization computes the representative of `x`
modulo `2 * π` lying in `[0, 2 * π)`. -/
lemma normalize2pi_eq (x : ℝ) : normalize2pi x = x - 2 * π * ⌊x / (2 * π)⌋ := by
  have hp : (0 : ℝ) < 2 * π := two_pi_pos
  unfold normalize2pi
  rcases le_or_lt 0 x with hx | hx
  · rw [jsMod_of_nonneg hp hx]
    obtain ⟨h0, h1⟩ := sub_floor_bounds x hp
    have h2 : 0 ≤ x - 2 * π * ⌊x / (2 * π)⌋ + 2 * π := by linarith
    rw [jsMod_of_nonneg hp h2]
    have h3 : (x - 2 * π * ⌊x / (2 * π)⌋ + 2 * π) / (2 * π)
        = (x - 2 * π * ⌊x / (2 * π)⌋) / (2 * π) + 1 := by
      field_simp
    have h4 : ⌊(x - 2 * π * ⌊x / (2 * π)⌋) / (2 * π)⌋ = 0 := by
      rw [Int.floor_eq_zero_iff]
      exact ⟨div_nonneg h0 hp.le, (div_lt_one hp).mpr h1⟩
    rw [h3, Int.floor_add_one, h4]
    push_cast
    ring
  · rw [jsMod_of_neg hp hx]
    have hcle : x / (2 * π) ≤ (⌈x / (2 * π)⌉ : ℝ) := Int.le_ceil _
    have hclt : (⌈x / (2 * π)⌉ : ℝ) < x / (2 * π) + 1 := Int.ceil_lt_add_one _
    have hxle : x ≤ 2 * π * ⌈x / (2 * π)⌉ := by
      rw [div_le_iff hp] at hcle
      linarith
    have hxgt : 2 * π * (⌈x / (2 * π)⌉ : ℝ) < x + 2 * π := by
      have h5 : (⌈x / (2 * π)⌉ : ℝ) - 1 < x / (2 * π) := by linarith
      have h6 := (lt_div_iff hp).mp h5
      linarith
    have h2 : 0 ≤ x - 2 * π * ⌈x / (2 * π)⌉ + 2 * π := by linarith
    rw [jsMod_of_nonneg hp h2]
    rcases lt_or_eq_of_le hxle with hyLt | hyEq
    · have hfl : ⌊(x - 2 * π * ⌈x / (2 * π)⌉ + 2 * π) / (2 * π)⌋ = 0 := by
        rw [Int.floor_eq_zero_iff]
        constructor
        · exact div_nonneg h2 hp.le
        · rw [div_lt_one hp]
          linarith
      have hflx : ⌊x / (2 * π)⌋ = ⌈x / (2 * π)⌉ - 1 := by
        rw [Int.floor_eq_iff]
        push_cast
        constructor
        · linarith
        · rw [div_lt_iff hp] at *
          nlinarith [hyLt]
      rw [hfl, hflx]
      push_cast
      ring
    · have hfl1 : ⌊(x - 2 * π * ⌈x / (2 * π)⌉ + 2 * π) / (2 * π)⌋ = 1 := by
        have harg : x - 2 * π * (⌈x / (2 * π)⌉ : ℝ) + 2 * π = 2 * π := by linarith
        rw [harg, div_self hp.ne', Int.floor_one]
      have hflx : ⌊x / (2 * π)⌋ = ⌈x / (2 * π)⌉ := by
        have hdiv : x / (2 * π) = ((⌈x / (2 * π)⌉ : ℤ) : ℝ) := by
          rw [div_eq_iff hp.ne']
          linarith
        rw [hdiv, Int.floor_intCast, Int.ceil_intCast]
      rw [hfl1, hflx]
      push_cast
      linarith

lemma normalize2pi_nonneg (x : ℝ) : 0 ≤ normalize2pi x := by
  rw [normalize2pi_eq]
  exact (sub_floor_bounds x two_pi_pos).1

lemma normalize2pi_lt (x : ℝ) : normalize2pi x < 2 * π := by
  rw [normalize2pi_eq]
  exact (sub_floor_bounds x two_pi_pos).2

lemma anglePerClick_pos : 0 < anglePerClick := by
  unfold anglePerClick CLICKS_PER_FULL_CIRCLE
  positivity

lemma two_pi_eq_clicks : 2 * π = 24 * anglePerClick := by
  unfold anglePerClick CLICKS_PER_FULL_CIRCLE
  push_cast
  field_simp

/-! ## Tick-counting lemmas -/

/-- The wrapped click index is the unbounded one reduced modulo 24. -/
lemma clickIndex_eq_emod (r : ℝ) : clickIndex r = unboundedClickIndex r % 24 := by
  have hapc := anglePerClick_pos
  have key : clickIndex r = unboundedClickIndex r - 24 * ⌊(r - π / 2) / (2 * π)⌋ := by
    unfold clickIndex unboundedClickIndex
    rw [normalize2pi_eq]
    have hdiv : (r - π / 2 - 2 * π * ⌊(r - π / 2) / (2 * π)⌋) / anglePerClick
        = (r - π / 2) / anglePerClick - ((24 * ⌊(r - π / 2) / (2 * π)⌋ : ℤ) : ℝ) := by
      rw [two_pi_eq_clicks]
      push_cast
      field_simp
      ring
    rw [hdiv, Int.floor_sub_int]
  have hb0 : 0 ≤ clickIndex r := by
    unfold clickIndex
    exact Int.floor_nonneg.mpr (div_nonneg (normalize2pi_nonneg _) hapc.le)
  have hb1 : clickIndex r < 24 := by
    unfold clickIndex
    rw [Int.floor_lt]
    push_cast
    rw [div_lt_iff hapc]
    calc normalize2pi (r - π / 2) < 2 * π := normalize2pi_lt _
      _ = 24 * anglePerClick := two_pi_eq_clicks
  omega

/-- A step of size at most `anglePerClick` in the positive direction moves
the unbounded click index by 0 or 1. -/
lemma unboundedClickIndex_step {x y : ℝ} (h0 : 0 ≤ y - x) (h1 : y - x ≤ anglePerClick) :
    unboundedClickIndex y = unboundedClickIndex x ∨
      unboundedClickIndex y = unboundedClickIndex x + 1 := by
  have hapc := anglePerClick_pos
  unfold unboundedClickIndex
  have hle : (x - π / 2) / anglePerClick ≤ (y - π / 2) / anglePerClick :=
    (div_le_div_right hapc).mpr (by linarith)
  have hge : (y - π / 2) / anglePerClick ≤ (x - π / 2) / anglePerClick + 1 := by
    rw [div_le_iff hapc, add_mul, one_mul, div_mul_cancel₀ _ hapc.ne']
    linarith
  have f1 := Int.floor_mono hle
  have f2 : ⌊(y - π / 2) / anglePerClick⌋ ≤ ⌊(x - π / 2) / anglePerClick⌋ + 1 := by
    have h := Int.floor_mono hge
    rwa [Int.floor_add_one] at h
  omega

lemma unboundedClickIndex_add_two_pi (x : ℝ) :
    unboundedClickIndex (x + 2 * π) = unboundedClickIndex x + 24 := by
  have hapc := anglePerClick_pos
  unfold unboundedClickIndex
  have hdiv : (x + 2 * π - π / 2) / anglePerClick
      = (x - π / 2) / anglePerClick + ((24 : ℤ) : ℝ) := by
    rw [two_pi_eq_clicks]
    push_cast
    field_simp
    ring
  rw [hdiv, Int.floor_add_int]

lemma runTicks_append (s : TickState) (l1 l2 : List ℝ) :
    runTicks s (l1 ++ l2) = runTicks (runTicks s l1) l2 :=
  List.foldl_append _ _ _ _

lemma checkAndPlayTick_lastClickIndex (rot : ℝ) (s : TickState) :
    (checkAndPlayTick rot s).lastClickIndex = some (clickIndex rot) := by
  cases s with
  | mk last ticks => cases last <;> rfl

lemma checkAndPlayTick_ticks_of_some (rot : ℝ) (s : TickState) (prev : ℤ)
    (h : s.lastClickIndex = some prev) :
    (checkAndPlayTick rot s).ticksPlayed
      = if clickIndex rot ≠ prev then s.ticksPlayed + 1 else s.ticksPlayed := by
  cases s with
  | mk last ticks =>
      cases last with
      | none => simp at h
      | some p =>
          obtain rfl : p = prev := by simpa using h
          rfl

/-- Running the tick check over samples whose unbounded click index moves
by 0 or `d` (with `d = ±1`) each step fires one tick per index move. -/
lemma runTicks_monotone_spec (d : ℤ) (hd : d = 1 ∨ d = -1) (n : ℕ) (r : ℕ → ℝ) (t : ℕ)
    (hstep : ∀ i, i < n →
      unboundedClickIndex (r (i + 1)) = unboundedClickIndex (r i) ∨
        unboundedClickIndex (r (i + 1)) = unboundedClickIndex (r i) + d) :
    (runTicks ⟨some (clickIndex (r 0)), t⟩ ((List.range n).map fun i => r (i + 1))).lastClickIndex
        = some (clickIndex (r n))
    ∧ ((runTicks ⟨some (clickIndex (r 0)), t⟩
          ((List.range n).map fun i => r (i + 1))).ticksPlayed : ℤ)
        = t + d * (unboundedClickIndex (r n) - unboundedClickIndex (r 0)) := by
  induction n with
  | zero => simp [runTicks]
  | succ n ih =>
      obtain ⟨ih1, ih2⟩ := ih (fun i hi => hstep i (by omega))
      rw [List.range_succ, List.map_append, runTicks_append]
      have hone : ∀ s : TickState, runTicks s (List.map (fun i => r (i + 1)) [n])
          = checkAndPlayTick (r (n + 1)) s := fun s => rfl
      rw [hone]
      refine ⟨checkAndPlayTick_lastClickIndex _ _, ?_⟩
      rw [checkAndPlayTick_ticks_of_some _ _ _ ih1]
      rcases hstep n (Nat.lt_succ_self n) with heq | hne
      · have hceq : clickIndex (r (n + 1)) = clickIndex (r n) := by
          rw [clickIndex_eq_emod, clickIndex_eq_emod, heq]
        rw [if_neg (by simp [hceq])]
        rw [ih2, heq]
      · have hcne : clickIndex (r (n + 1)) ≠ clickIndex (r n) := by
          rw [clickIndex_eq_emod, clickIndex_eq_emod, hne]
          rcases hd with h | h <;> (subst h; omega)
        rw [if_pos hcne]
        push_cast
        rw [ih2, hne]
        rcases hd with h | h <;> (subst h; ring)

/-! ## Claim C1 -/

/-- C1 counterexample: the claim asserts the tick count over a monotone
sweep from an angle `a` to `a + 2π` is exactly 24 regardless of the step
sizes.  The sweep from rotation 0 to `2π` taken in a single (monotone)
step fires 0 tick events, because the wrapped click index of `2π` equals
that of `0`, so no boundary change is detected. -/
theorem tick_full_circle_single_step_counterexample :
    (0 : ℝ) < 2 * π ∧
    (runTicks ⟨some (clickIndex 0), 0⟩ [2 * π]).ticksPlayed = 0 := by
  refine ⟨two_pi_pos, ?_⟩
  have h24 : clickIndex (2 * π) = clickIndex 0 := by
    have h0 : (2 * π : ℝ) = 0 + 2 * π := by ring
    rw [clickIndex_eq_emod, clickIndex_eq_emod, h0, unboundedClickIndex_add_two_pi]
    omega
  have h : runTicks ⟨some (clickIndex 0), 0⟩ [2 * π]
      = checkAndPlayTick (2 * π) ⟨some (clickIndex 0), 0⟩ := rfl
  rw [h, checkAndPlayTick_ticks_of_some _ _ _ rfl, if_neg (by simp [h24])]

/-- C1 (amended): over any sequence of animation steps whose rotation
values advance monotonically from `r 0` to `r 0 + 2π` (or to `r 0 - 2π`)
with each individual step of size at most `anglePerClick`, the tick check
fires exactly `CLICKS_PER_FULL_CIRCLE = 24` tick events, in either
direction.  (Steps larger than `anglePerClick` can cross several
boundaries while firing a single tick, so the step-size bound — absent
from the original claim — is necessary.) -/
theorem tick_full_circle_count (n : ℕ) (r : ℕ → ℝ) (t : ℕ) :
    ((∀ i, i < n → 0 ≤ r (i + 1) - r i ∧ r (i + 1) - r i ≤ anglePerClick) →
      r n = r 0 + 2 * π →
      (runTicks ⟨some (clickIndex (r 0)), t⟩
          ((List.range n).map fun i => r (i + 1))).ticksPlayed = t + CLICKS_PER_FULL_CIRCLE)
    ∧ ((∀ i, i < n → 0 ≤ r i - r (i + 1) ∧ r i - r (i + 1) ≤ anglePerClick) →
      r n = r 0 - 2 * π →
      (runTicks ⟨some (clickIndex (r 0)), t⟩
          ((List.range n).map fun i => r (i + 1))).ticksPlayed = t + CLICKS_PER_FULL_CIRCLE) := by
  constructor
  · intro hsteps hend
    have h := (runTicks_monotone_spec 1 (Or.inl rfl) n r t
      (fun i hi => unboundedClickIndex_step (hsteps i hi).1 (hsteps i hi).2)).2
    have hU : unboundedClickIndex (r n) = unboundedClickIndex (r 0) + 24 := by
      rw [hend]
      exact unboundedClickIndex_add_two_pi _
    rw [hU] at h
    unfold CLICKS_PER_FULL_CIRCLE
    omega
  · intro hsteps hend
    have hsteps1 : ∀ i, i < n →
        unboundedClickIndex (r (i + 1)) = unboundedClickIndex (r i) ∨
          unboundedClickIndex (r (i + 1)) = unboundedClickIndex (r i) + (-1) := by
      intro i hi
      rcases unboundedClickIndex_step (hsteps i hi).1 (hsteps i hi).2 with h | h
      · exact Or.inl h.symm
      · right
        omega
    have h := (runTicks_monotone_spec (-1) (Or.inr rfl) n r t hsteps1).2
    have hU : unboundedClickIndex (r 0) = unboundedClickIndex (r n) + 24 := by
      have hadd := unboundedClickIndex_add_two_pi (r n)
      have h0 : r n + 2 * π = r 0 := by linarith [hend]
      rwa [h0] at hadd
    rw [hU] at h
    unfold CLICKS_PER_FULL_CIRCLE
    omega

/-- C1 witness: the sweep `0, anglePerClick, 2·anglePerClick, …, 2π` in 24
steps of exactly one click boundary each fires exactly 24 ticks. -/
theorem tick_full_circle_count_witness :
    (runTicks ⟨some (clickIndex (((0 : ℕ) : ℝ) * anglePerClick)), 0⟩
        ((List.range 24).map fun i => (((i + 1 : ℕ) : ℝ)) * anglePerClick)).ticksPlayed
      = 0 + CLICKS_PER_FULL_CIRCLE := by
  have hA : ∀ i : ℕ, i < 24 →
      0 ≤ ((i + 1 : ℕ) : ℝ) * anglePerClick - ((i : ℕ) : ℝ) * anglePerClick ∧
        ((i + 1 : ℕ) : ℝ) * anglePerClick - ((i : ℕ) : ℝ) * anglePerClick ≤ anglePerClick := by
    intro i hi
    have hdiff : ((i + 1 : ℕ) : ℝ) * anglePerClick - ((i : ℕ) : ℝ) * anglePerClick
        = anglePerClick := by
      push_cast
      ring
    rw [hdiff]
    exact ⟨anglePerClick_pos.le, le_refl _⟩
  have hB : ((24 : ℕ) : ℝ) * anglePerClick = ((0 : ℕ) : ℝ) * anglePerClick + 2 * π := by
    push_cast
    rw [two_pi_eq_clicks]
    ring
  exact (tick_full_circle_count 24 (fun k : ℕ => (k : ℝ) * anglePerClick) 0).1 hA hB

/-! ## Claim C10 -/

/-- C10: with an empty item set, `anglePerItem` is defined as 0 (not
`2π/0`), and both selection projections return 0 for every rotation, so
the public interface never divides by zero or produces an out-of-range
index. -/
theorem empty_item_set_safe :
    anglePerItem 0 = 0
    ∧ (∀ rotation : ℝ, selectedIndex 0 rotation = 0)
    ∧ (∀ rotation : ℝ, finalSelectedIndex 0 rotation = 0) := by
  refine ⟨?_, fun r => ?_, fun r => ?_⟩
  · simp [anglePerItem]
  · simp [selectedIndex]
  · simp [finalSelectedIndex]

/-! ## Claim C2 -/

/-- C2: with an active music voice and audio unmuted, `updatePlaybackRate`
sets the voice's playback rate to `1·x² + 0.5·x + 0.5` where `x` is the
zoom exponent normalized to the declared range (0.5 for a degenerate
range); the quadratic maps 0 to 0.5, 0.5 to 1, 1 to 2, and is strictly
increasing on `[0, 1]`. -/
theorem playback_rate_spec (z zmin zmax : ℝ) (s : AudioPlayState) (rate : ℝ)
    (hvoice : s.bgMusicRate = some rate) (hmute : s.isMuted = false) :
    (updatePlaybackRate z (zmin, zmax) s).bgMusicRate
        = some (playbackRateOf (normalizeZoom z zmin zmax))
    ∧ playbackRateOf 0 = 0.5
    ∧ playbackRateOf 0.5 = 1
    ∧ playbackRateOf 1 = 2
    ∧ StrictMonoOn playbackRateOf (Set.Icc (0 : ℝ) 1) := by
  refine ⟨?_, ?_, ?_, ?_, ?_⟩
  · simp [updatePlaybackRate, hvoice, hmute, normalizeZoom]
  · unfold playbackRateOf QUADRATIC_A QUADRATIC_B MIN_PLAYBACK_RATE
    norm_num
  · unfold playbackRateOf QUADRATIC_A QUADRATIC_B MIN_PLAYBACK_RATE
    norm_num
  · unfold playbackRateOf QUADRATIC_A QUADRATIC_B MIN_PLAYBACK_RATE
    norm_num
  · intro a ha b hb hab
    simp only [Set.mem_Icc] at ha hb
    unfold playbackRateOf QUADRATIC_A QUADRATIC_B MIN_PLAYBACK_RATE
    nlinarith

/-- C2 witness at a concrete voice state and range. -/
theorem playback_rate_spec_witness :
    (updatePlaybackRate 1 (0, 1) ⟨some 1, false, none⟩).bgMusicRate
        = some (playbackRateOf (normalizeZoom 1 0 1))
    ∧ playbackRateOf 0 = 0.5
    ∧ playbackRateOf 0.5 = 1
    ∧ playbackRateOf 1 = 2
    ∧ StrictMonoOn playbackRateOf (Set.Icc (0 : ℝ) 1) :=
  playback_rate_spec 1 0 1 ⟨some 1, false, none⟩ 1 rfl rfl

/-! ## Claim C5 -/

lemma animateStep_contract (t c : ℝ) : |t - animateStep t c| ≤ 0.88 * |t - c| := by
  simp only [animateStep, ROTATION_EASING]
  by_cases h : |t - c| < 0.001
  · rw [if_pos h, sub_self, abs_zero]
    positivity
  · rw [if_neg h]
    have heq : t - (c + (t - c) * 0.12) = (t - c) * 0.88 := by ring
    rw [heq, abs_mul, abs_of_nonneg (by norm_num : (0 : ℝ) ≤ (0.88 : ℝ))]
    linarith [abs_nonneg (t - c)]

lemma animateStep_fixed (t : ℝ) : animateStep t t = t := by
  simp only [animateStep, sub_self, abs_zero]
  rw [if_pos (by norm_num)]

lemma animateStep_dist (t c : ℝ) (n : ℕ) :
    |t - (animateStep t)^[n] c| ≤ 0.88 ^ n * |t - c| := by
  induction n with
  | zero => simp
  | succ n ih =>
      rw [Function.iterate_succ_apply']
      calc |t - animateStep t ((animateStep t)^[n] c)|
          ≤ 0.88 * |t - (animateStep t)^[n] c| := animateStep_contract _ _
        _ ≤ 0.88 * (0.88 ^ n * |t - c|) := by nlinarith [ih]
        _ = 0.88 ^ (n + 1) * |t - c| := by ring

/-- C5: one animation step snaps to the target exactly when the remaining
difference is below 0.001 and otherwise eases by the factor 0.12; the
distance to the target never increases; and iterating the step from any
start reaches the target exactly within a bounded number of steps. -/
theorem easing_step_spec (t c : ℝ) :
    (|t - c| < 0.001 → animateStep t c = t)
    ∧ (¬ |t - c| < 0.001 → animateStep t c = c + (t - c) * ROTATION_EASING)
    ∧ |t - animateStep t c| ≤ |t - c|
    ∧ ∃ n : ℕ, ∀ m : ℕ, n ≤ m → (animateStep t)^[m] c = t := by
  refine ⟨?_, ?_, ?_, ?_⟩
  · intro h
    simp only [animateStep]
    rw [if_pos h]
  · intro h
    simp only [animateStep]
    rw [if_neg h]
  · calc |t - animateStep t c| ≤ 0.88 * |t - c| := animateStep_contract t c
      _ ≤ |t - c| := by nlinarith [abs_nonneg (t - c)]
  · rcases eq_or_ne (|t - c|) 0 with hz | hnz
    · have hct : c = t := by
        have h := abs_eq_zero.mp hz
        linarith
      refine ⟨0, fun m hm => ?_⟩
      rw [hct]
      exact Function.iterate_fixed (animateStep_fixed t) m
    · have hpos : 0 < |t - c| := lt_of_le_of_ne (abs_nonneg _) (Ne.symm hnz)
      obtain ⟨n, hn⟩ := exists_pow_lt_of_lt_one
        (div_pos (by norm_num : (0 : ℝ) < 0.001) hpos) (by norm_num : (0.88 : ℝ) < 1)
      have hsnap : |t - (animateStep t)^[n] c| < 0.001 := by
        have hb := animateStep_dist t c n
        rw [lt_div_iff hpos] at hn
        linarith
      have hfix : (animateStep t)^[n + 1] c = t := by
        rw [Function.iterate_succ_apply']
        simp only [animateStep]
        rw [if_pos hsnap]
      refine ⟨n + 1, fun m hm => ?_⟩
      obtain ⟨k, rfl⟩ : ∃ k, m = k + (n + 1) := ⟨m - (n + 1), by omega⟩
      rw [Function.iterate_add_apply, hfix]
      exact Function.iterate_fixed (animateStep_fixed t) k

/-- C5 witness: the snap branch at `t = c = 0` and the easing branch at
`t = 1, c = 0`. -/
theorem easing_step_spec_witness :
    animateStep 0 0 = 0 ∧ animateStep 1 0 = 0 + (1 - 0) * ROTATION_EASING :=
  ⟨(easing_step_spec 0 0).1 (by norm_num),
   (easing_step_spec 1 0).2.1 (by norm_num)⟩

/-! ## Claim C8 -/

/-- C8 counterexample: the claim asserts a failing asset never blocks the
other.  Starting from a fresh state, if the tick fetch/decode fails while
the music fetch/decode would succeed (with buffer 7), the run still
reports ready but leaves the music buffer unloaded: the tick load sits in
the outer `try`, so its failure jumps past the music load. -/
theorem audio_init_tick_blocks_music :
    (initializeAudio none (some 7) ⟨false, false, none, none⟩).audioReady = true
    ∧ (initializeAudio none (some 7) ⟨false, false, none, none⟩).musicBuffer = none := by
  constructor <;> rfl

/-- C8 (amended): after `initializeAudio`, `audioReady` is true in every
outcome; a music failure does not block the tick load; but a tick failure
skips the music load entirely (the music buffer is left untouched even
when the music fetch/decode would have succeeded). -/
theorem audio_init_ready_spec (tickResult musicResult : Option ℕ) (s : AudioInitState)
    (hready : s.audioReady = false) :
    (initializeAudio tickResult musicResult s).audioReady = true
    ∧ (s.tickBuffer = none → ∀ b, tickResult = some b →
        (initializeAudio tickResult musicResult s).tickBuffer = some b)
    ∧ (s.tickBuffer = none → tickResult = none →
        (initializeAudio tickResult musicResult s).musicBuffer = s.musicBuffer) := by
  rcases s with ⟨ar, ctx, tb, mb⟩
  simp only at hready
  subst hready
  refine ⟨?_, ?_, ?_⟩
  · cases tb <;> cases tickResult <;> cases mb <;> cases musicResult <;>
      simp [initializeAudio]
  · intro htb b hb
    simp only at htb
    subst htb
    subst hb
    cases mb <;> cases musicResult <;> simp [initializeAudio]
  · intro htb htick
    simp only at htb
    subst htb
    subst htick
    simp [initializeAudio]

/-- C8 witness: a successful tick load with a failing music load still
loads the tick buffer and reports ready; a failing tick load with a
would-succeed music load leaves the music buffer empty. -/
theorem audio_init_ready_spec_witness :
    (initializeAudio (some 3) none ⟨false, false, none, none⟩).audioReady = true
    ∧ (initializeAudio (some 3) none ⟨false, false, none, none⟩).tickBuffer = some 3
    ∧ (initializeAudio none (some 7) ⟨false, false, none, some 9⟩).musicBuffer = some 9 :=
  ⟨(audio_init_ready_spec (some 3) none ⟨false, false, none, none⟩ rfl).1,
   (audio_init_ready_spec (some 3) none ⟨false, false, none, none⟩ rfl).2.1 rfl 3 rfl,
   (audio_init_ready_spec none (some 7) ⟨false, false, none, some 9⟩ rfl).2.2 rfl rfl⟩

/-! ## Claim C4 -/

/-- In every reachable state, a pending set forces the phase to be
`loading` or `fadingToBlack` (the pending set is consumed at the instant
the machine enters `holding`). -/
lemma reachable_pending_phase {initial : String} {s : TransState}
    (h : ReachableTrans initial s) :
    s.pendingSet ≠ none →
      s.fadePhase = FadePhase.loading ∨ s.fadePhase = FadePhase.fadingToBlack := by
  induction h with
  | init =>
      intro hp
      simp [initialTransState] at hp
  | step e s hs ih =>
      intro hp
      cases e with
      | startRequest target =>
          simp only [transStep, startTransition] at hp ⊢
          by_cases hc : s.fadePhase ≠ FadePhase.idle ∨ target = s.activeSet
          · rw [if_pos hc] at hp ⊢
            exact ih hp
          · rw [if_neg hc] at hp ⊢
            left
            rfl
      | preloadDone =>
          simp only [transStep] at hp ⊢
          by_cases hc : s.fadePhase = FadePhase.loading ∧ s.pendingSet ≠ none
          · rw [if_pos hc] at hp ⊢
            right
            rfl
          · rw [if_neg hc] at hp ⊢
            exact ih hp
      | fadeToBlackTimer =>
          simp only [transStep] at hp ⊢
          by_cases hc : s.fadePhase = FadePhase.fadingToBlack
          · rw [if_pos hc] at hp ⊢
            cases hps : s.pendingSet with
            | some t =>
                simp only [hps] at hp
                simp at hp
            | none =>
                simp only [hps] at hp
                simp [hps] at hp
          · rw [if_neg hc] at hp ⊢
            exact ih hp
      | holdTimer =>
          simp only [transStep] at hp ⊢
          by_cases hc : s.fadePhase = FadePhase.holding
          · rw [if_pos hc] at hp ⊢
            rcases ih hp with h1 | h1 <;> (rw [hc] at h1; simp at h1)
          · rw [if_neg hc] at hp ⊢
            exact ih hp
      | fadeOutTimer =>
          simp only [transStep] at hp ⊢
          by_cases hc : s.fadePhase = FadePhase.fadingOut
          · rw [if_pos hc] at hp ⊢
            rcases ih hp with h1 | h1 <;> (rw [hc] at h1; simp at h1)
          · rw [if_neg hc] at hp ⊢
            exact ih hp

/-- C4: in every reachable state of the transition machine, `pendingSet`
is non-null only while the phase is `loading`, `fading-to-black` or
`holding`; the only step that clears a pending set is the one entering
`holding`, and at that same step `activeSet` receives the old pending
value; and entering `holding` from `fading-to-black` with a pending set
always performs exactly that swap. -/
theorem pending_set_invariant (initial : String) (s : TransState)
    (h : ReachableTrans initial s) :
    (s.pendingSet ≠ none →
      s.fadePhase = FadePhase.loading ∨ s.fadePhase = FadePhase.fadingToBlack
        ∨ s.fadePhase = FadePhase.holding)
    ∧ (∀ (e : TransEvent) (t : String), s.pendingSet = some t →
        (transStep e s).pendingSet = none →
        s.fadePhase = FadePhase.fadingToBlack
          ∧ (transStep e s).fadePhase = FadePhase.holding
          ∧ (transStep e s).activeSet = t)
    ∧ (∀ t : String, s.fadePhase = FadePhase.fadingToBlack → s.pendingSet = some t →
        (transStep TransEvent.fadeToBlackTimer s).fadePhase = FadePhase.holding
          ∧ (transStep TransEvent.fadeToBlackTimer s).activeSet = t
          ∧ (transStep TransEvent.fadeToBlackTimer s).pendingSet = none) := by
  refine ⟨?_, ?_, ?_⟩
  · intro hp
    rcases reachable_pending_phase h hp with h1 | h1
    · exact Or.inl h1
    · exact Or.inr (Or.inl h1)
  · intro e t hpend hclear
    have hphase : s.fadePhase = FadePhase.loading ∨ s.fadePhase = FadePhase.fadingToBlack :=
      reachable_pending_phase h (by simp [hpend])
    cases e with
    | startRequest target =>
        exfalso
        simp only [transStep, startTransition] at hclear
        have hcond : s.fadePhase ≠ FadePhase.idle ∨ target = s.activeSet := by
          left
          rcases hphase with h1 | h1 <;> simp [h1]
        rw [if_pos hcond] at hclear
        rw [hpend] at hclear
        simp at hclear
    | preloadDone =>
        exfalso
        simp only [transStep] at hclear
        by_cases hc : s.fadePhase = FadePhase.loading ∧ s.pendingSet ≠ none
        · rw [if_pos hc] at hclear
          rw [hpend] at hclear
          simp at hclear
        · rw [if_neg hc] at hclear
          rw [hpend] at hclear
          simp at hclear
    | fadeToBlackTimer =>
        simp only [transStep]
        by_cases hc : s.fadePhase = FadePhase.fadingToBlack
        · rw [if_pos hc]
          simp only [hpend]
          refine ⟨hc, by trivial, by trivial⟩
        · exfalso
          simp only [transStep] at hclear
          rw [if_neg hc] at hclear
          rw [hpend] at hclear
          simp at hclear
    | holdTimer =>
        exfalso
        simp only [transStep] at hclear
        by_cases hc : s.fadePhase = FadePhase.holding
        · rw [if_pos hc] at hclear
          rw [hpend] at hclear
          simp at hclear
        · rw [if_neg hc] at hclear
          rw [hpend] at hclear
          simp at hclear
    | fadeOutTimer =>
        exfalso
        simp only [transStep] at hclear
        by_cases hc : s.fadePhase = FadePhase.fadingOut
        · rw [if_pos hc] at hclear
          rw [hpend] at hclear
          simp at hclear
        · rw [if_neg hc] at hclear
          rw [hpend] at hclear
          simp at hclear
  · intro t hphase hpend
    simp only [transStep]
    rw [if_pos hphase]
    simp only [hpend]
    refine ⟨by trivial, by trivial, by trivial⟩

/-- C4 witness: the reachable run start("b") → preload-done → holding
entry swaps the pending set into the active slot and clears it. -/
theorem pending_set_invariant_witness :
    (transStep TransEvent.fadeToBlackTimer
        (transStep TransEvent.preloadDone
          (transStep (TransEvent.startRequest "b") (initialTransState "a")))).fadePhase
        = FadePhase.holding
    ∧ (transStep TransEvent.fadeToBlackTimer
        (transStep TransEvent.preloadDone
          (transStep (TransEvent.startRequest "b") (initialTransState "a")))).activeSet = "b"
    ∧ (transStep TransEvent.fadeToBlackTimer
        (transStep TransEvent.preloadDone
          (transStep (TransEvent.startRequest "b") (initialTransState "a")))).pendingSet
        = none := by
  have hreach : ReachableTrans "a"
      (transStep TransEvent.preloadDone
        (transStep (TransEvent.startRequest "b") (initialTransState "a"))) :=
    ReachableTrans.step _ _ (ReachableTrans.step _ _ ReachableTrans.init)
  exact (pending_set_invariant "a" _ hreach).2.2 "b" (by rfl) (by rfl)

/-! ## Claim C3 -/

/-- C3: while a drag-gesture start index is recorded, the trigger effect
starts no transition during the drag or before the rotation settles; if
the settled index equals the recorded start index (mod N) it starts no
transition at all and only clears the recorded index; and any state
change of the transition slice requires the settle condition plus a
settled index differing from the recorded start index. -/
theorem drag_transition_gating (dragging : Bool) (names : List String)
    (ring target th : ℝ) (ts : TriggerState) (d : ℤ)
    (hd : ts.dragStartIndex = some d) :
    (dragging = true → triggerEffect dragging names ring target th ts = ts)
    ∧ (¬ isRotationSettled target ring th → triggerEffect false names ring target th ts = ts)
    ∧ (isRotationSettled target ring th →
        (d.tmod (names.length : ℤ) + (names.length : ℤ)).tmod (names.length : ℤ)
          = ((finalSelectedIndex names.length target).tmod (names.length : ℤ)
              + (names.length : ℤ)).tmod (names.length : ℤ) →
        (triggerEffect false names ring target th ts).trans = ts.trans
          ∧ (triggerEffect false names ring target th ts).dragStartIndex = none)
    ∧ ((triggerEffect dragging names ring target th ts).trans ≠ ts.trans →
        isRotationSettled target ring th
          ∧ (d.tmod (names.length : ℤ) + (names.length : ℤ)).tmod (names.length : ℤ)
            ≠ ((finalSelectedIndex names.length target).tmod (names.length : ℤ)
                + (names.length : ℤ)).tmod (names.length : ℤ)) := by
  refine ⟨?_, ?_, ?_, ?_⟩
  · intro hdr
    subst hdr
    simp [triggerEffect]
  · intro hns
    simp only [triggerEffect, hd]
    simp only [Bool.false_eq_true, if_false]
    rw [if_pos hns]
  · intro hset heq
    simp only [triggerEffect, hd]
    simp only [Bool.false_eq_true, if_false]
    rw [if_neg (not_not_intro hset), if_pos heq]
    exact ⟨rfl, rfl⟩
  · intro hchange
    by_cases hdr : dragging = true
    · exfalso
      subst hdr
      simp [triggerEffect] at hchange
    · have hdr2 : dragging = false := by
        revert hdr
        cases dragging <;> simp
      subst hdr2
      by_cases hset : isRotationSettled target ring th
      · by_cases heq :
          (d.tmod (names.length : ℤ) + (names.length : ℤ)).tmod (names.length : ℤ)
            = ((finalSelectedIndex names.length target).tmod (names.length : ℤ)
                + (names.length : ℤ)).tmod (names.length : ℤ)
        · exfalso
          simp only [triggerEffect, hd] at hchange
          simp only [Bool.false_eq_true, if_false] at hchange
          rw [if_neg (not_not_intro hset), if_pos heq] at hchange
          exact hchange rfl
        · exact ⟨hset, heq⟩
      · exfalso
        simp only [triggerEffect, hd] at hchange
        simp only [Bool.false_eq_true, if_false] at hchange
        rw [if_pos hset] at hchange
        exact hchange rfl

lemma finalSelectedIndex_two_zero : finalSelectedIndex 2 0 = 0 := by
  unfold finalSelectedIndex
  rw [if_neg (by norm_num)]
  have hn : normalize2pi 0 = 0 := by
    rw [normalize2pi_eq]
    simp
  simp [hn]

lemma not_settled_one_zero : ¬ isRotationSettled 1 0 0.01 := by
  intro hcon
  unfold isRotationSettled at hcon
  have hpi := Real.pi_gt_three
  rw [show |(1 : ℝ) - 0| = 1 by norm_num] at hcon
  rcases min_lt_iff.mp hcon with h1 | h1 <;> linarith

lemma settled_zero_zero : isRotationSettled 0 0 0.01 := by
  unfold isRotationSettled
  rw [show |(0 : ℝ) - 0| = 0 by norm_num]
  calc min (0 : ℝ) (2 * π - 0) ≤ 0 := min_le_left _ _
    _ < 0.01 := by norm_num

/-- C3 witness: with a recorded start index 0 over two items, an
unsettled rotation leaves everything unchanged, and a settled round-trip
back to index 0 starts no transition and only clears the recorded
index. -/
theorem drag_transition_gating_witness :
    triggerEffect false ["a", "b"] 0 1 0.01 ⟨initialTransState "a", some 0⟩
        = ⟨initialTransState "a", some 0⟩
    ∧ (triggerEffect false ["a", "b"] 0 0 0.01 ⟨initialTransState "a", some 0⟩).trans
        = initialTransState "a"
    ∧ (triggerEffect false ["a", "b"] 0 0 0.01 ⟨initialTransState "a", some 0⟩).dragStartIndex
        = none := by
  have heq : ((0 : ℤ).tmod ((["a", "b"] : List String).length : ℤ)
        + ((["a", "b"] : List String).length : ℤ)).tmod ((["a", "b"] : List String).length : ℤ)
      = ((finalSelectedIndex (["a", "b"] : List String).length 0).tmod
            ((["a", "b"] : List String).length : ℤ)
          + ((["a", "b"] : List String).length : ℤ)).tmod
          ((["a", "b"] : List String).length : ℤ) := by
    have h2 : finalSelectedIndex (["a", "b"] : List String).length 0 = 0 := by
      simpa using finalSelectedIndex_two_zero
    rw [h2]
  have h3 := (drag_transition_gating false ["a", "b"] 0 0 0.01
      ⟨initialTransState "a", some 0⟩ 0 rfl).2.2.1 settled_zero_zero heq
  exact ⟨(drag_transition_gating false ["a", "b"] 0 1 0.01
      ⟨initialTransState "a", some 0⟩ 0 rfl).2.1 not_settled_one_zero,
    h3.1, h3.2⟩

/-! ## Claim C6 -/

lemma normalize2pi_add_int_mul (x : ℝ) (k : ℤ) :
    normalize2pi (x + 2 * π * k) = normalize2pi x := by
  rw [normalize2pi_eq, normalize2pi_eq]
  have hdiv : (x + 2 * π * k) / (2 * π) = x / (2 * π) + (k : ℝ) := by
    field_simp
    ring
  rw [hdiv, Int.floor_add_int]
  push_cast
  ring

lemma floor_add_half (q : ℝ) : ⌊q + 1 / 2⌋ = ⌊q⌋ ∨ ⌊q + 1 / 2⌋ = ⌊q⌋ + 1 := by
  have f1 : ⌊q⌋ ≤ ⌊q + 1 / 2⌋ := Int.floor_mono (by linarith)
  have f2 : ⌊q + 1 / 2⌋ ≤ ⌊q⌋ + 1 := by
    have h := Int.floor_mono (show q + 1 / 2 ≤ q + 1 by linarith)
    rwa [Int.floor_add_one] at h
  omega

lemma normalize2pi_add_pi (t : ℝ) :
    normalize2pi (t + π) - normalize2pi t = π
      ∨ normalize2pi (t + π) - normalize2pi t = -π := by
  rw [normalize2pi_eq, normalize2pi_eq]
  have hdiv : (t + π) / (2 * π) = t / (2 * π) + 1 / 2 := by
    rw [div_add_div _ _ (two_pi_pos.ne') (two_ne_zero), div_eq_div_iff (by positivity) (by positivity)]
    ring
  rw [hdiv]
  rcases floor_add_half (t / (2 * π)) with h | h <;> rw [h]
  · left
    ring
  · right
    push_cast
    ring

lemma clickDiff_opposite {t api : ℝ} {idx : ℕ}
    (hk : ∃ k : ℤ, (idx : ℝ) * api = t + π + 2 * π * k) :
    clickDiff t idx api = π := by
  obtain ⟨k, hk⟩ := hk
  have hN : normalize2pi ((idx : ℝ) * api) = normalize2pi (t + π) := by
    rw [hk]
    exact normalize2pi_add_int_mul (t + π) k
  have hpi := Real.pi_pos
  simp only [clickDiff, clickDiffRaw, hN]
  rcases normalize2pi_add_pi t with h | h <;> rw [h]
  · rw [if_neg (lt_irrefl π), if_neg (by linarith : ¬π < -π)]
    rw [if_pos (by rw [abs_of_pos hpi, sub_self, abs_zero]; norm_num)]
  · rw [if_neg (by linarith : ¬π < -π), if_neg (lt_irrefl (-π))]
    rw [if_pos (by rw [abs_neg, abs_of_pos hpi, sub_self, abs_zero]; norm_num)]

/-- C6: the pre-tie-break click delta is congruent mod `2π` to the direct
difference `idx·api - targetRotation` and lies in `[-π, π]`; the applied
delta equals it except inside the 0.001 tie window around `±π`, where the
applied delta is `+π`; pointer-up on the click path adds exactly this
delta to `targetRotation`; and clicking the item exactly opposite the
current target always yields `+π`. -/
theorem click_shortest_path_spec (t api : ℝ) (idx : ℕ) :
    (∃ k : ℤ, clickDiffRaw t idx api = ((idx : ℝ) * api - t) + 2 * π * k)
    ∧ (-π ≤ clickDiffRaw t idx api ∧ clickDiffRaw t idx api ≤ π)
    ∧ (|(|clickDiffRaw t idx api| - π)| < 0.001 → clickDiff t idx api = π)
    ∧ (¬ |(|clickDiffRaw t idx api| - π)| < 0.001 →
        clickDiff t idx api = clickDiffRaw t idx api)
    ∧ (∀ (s : GestureState) (cs : ClickStart) (h sc sr : Bool),
        s.isDragging = true → s.clickStart = some cs → (h || sc || sr) = true →
        (handlePointerUp h sc sr api s).targetRotation
          = s.targetRotation + clickDiff s.targetRotation cs.index api)
    ∧ ((∃ k : ℤ, (idx : ℝ) * api = t + π + 2 * π * k) → clickDiff t idx api = π) := by
  have hpi := Real.pi_pos
  have ha0 := normalize2pi_nonneg ((idx : ℝ) * api)
  have ha1 := normalize2pi_lt ((idx : ℝ) * api)
  have hb0 := normalize2pi_nonneg t
  have hb1 := normalize2pi_lt t
  refine ⟨?_, ?_, ?_, ?_, ?_, clickDiff_opposite⟩
  · simp only [clickDiffRaw]
    by_cases h1 : normalize2pi ((idx : ℝ) * api) - normalize2pi t > π
    · rw [if_pos h1, normalize2pi_eq, normalize2pi_eq]
      exact ⟨⌊t / (2 * π)⌋ - ⌊((idx : ℝ) * api) / (2 * π)⌋ - 1, by push_cast; ring⟩
    · rw [if_neg h1]
      by_cases h2 : normalize2pi ((idx : ℝ) * api) - normalize2pi t < -π
      · rw [if_pos h2, normalize2pi_eq, normalize2pi_eq]
        exact ⟨⌊t / (2 * π)⌋ - ⌊((idx : ℝ) * api) / (2 * π)⌋ + 1, by push_cast; ring⟩
      · rw [if_neg h2, normalize2pi_eq, normalize2pi_eq]
        exact ⟨⌊t / (2 * π)⌋ - ⌊((idx : ℝ) * api) / (2 * π)⌋, by push_cast; ring⟩
  · simp only [clickDiffRaw]
    by_cases h1 : normalize2pi ((idx : ℝ) * api) - normalize2pi t > π
    · rw [if_pos h1]
      constructor <;> linarith
    · rw [if_neg h1]
      by_cases h2 : normalize2pi ((idx : ℝ) * api) - normalize2pi t < -π
      · rw [if_pos h2]
        constructor <;> linarith
      · rw [if_neg h2]
        constructor <;> linarith
  · intro h
    simp only [clickDiff]
    rw [if_pos h]
  · intro h
    simp only [clickDiff]
    rw [if_neg h]
  · intro s cs h sc sr hdrag hcs hvis
    simp only [handlePointerUp, hdrag, hcs, hvis, Bool.true_eq_false, if_false, if_true]

/-- C6 witness: for N = 6 items (`api = π/3`), clicking item 3 from
target 0 (the exactly opposite item) applies `+π`; and at a point far
from the tie window the applied delta is the raw shortest path. -/
theorem click_shortest_path_spec_witness :
    clickDiff 0 3 (π / 3) = π ∧ clickDiff 0 0 0 = clickDiffRaw 0 0 0 := by
  have hpi := Real.pi_gt_three
  have hraw : clickDiffRaw 0 0 0 = 0 := by
    have hn : normalize2pi 0 = 0 := by
      rw [normalize2pi_eq]
      simp
    simp only [clickDiffRaw, Nat.cast_zero, zero_mul, hn, sub_zero]
    rw [if_neg (by linarith), if_neg (by linarith)]
  constructor
  · exact (click_shortest_path_spec 0 (π / 3) 3).2.2.2.2.2 ⟨0, by push_cast; ring⟩
  · refine (click_shortest_path_spec 0 0 0).2.2.2.1 ?_
    rw [hraw]
    rw [abs_zero, zero_sub, abs_neg, abs_of_pos Real.pi_pos]
    intro hcon
    linarith

/-! ## Claim C7 -/

lemma handlePointerMove_clickStart_none (centerX centerY px py : ℝ) (s : GestureState)
    (h : s.clickStart = none) :
    (handlePointerMove centerX centerY px py s).clickStart = none := by
  rcases s with ⟨dr, la, clk, tr⟩
  simp only at h
  subst h
  cases dr <;> cases la <;> rfl

lemma runMoves_clickStart_none (centerX centerY : ℝ) (moves : List (ℝ × ℝ))
    (s : GestureState) (h : s.clickStart = none) :
    (runMoves centerX centerY s moves).clickStart = none := by
  induction moves generalizing s with
  | nil => exact h
  | cons m rest ih =>
      exact ih _ (handlePointerMove_clickStart_none centerX centerY m.1 m.2 s h)

lemma handlePointerMove_proj (centerX centerY px py : ℝ) (s : GestureState)
    (hdr : s.isDragging = true) (ha : s.dragLastAngle ≠ none) :
    (handlePointerMove centerX centerY px py s).isDragging = true
    ∧ (handlePointerMove centerX centerY px py s).dragLastAngle
        = some (getPointerAngle centerX centerY px py) := by
  rcases s with ⟨dr, la, clk, tr⟩
  simp only at hdr ha
  subst hdr
  cases la with
  | none => exact absurd rfl ha
  | some a => exact ⟨rfl, rfl⟩

lemma handlePointerMove_clickStart_some (centerX centerY px py : ℝ) (s : GestureState)
    (cs : ClickStart) (hdr : s.isDragging = true) (ha : s.dragLastAngle ≠ none)
    (hclk : s.clickStart = some cs) :
    (handlePointerMove centerX centerY px py s).clickStart
      = if Real.sqrt ((px - cs.x) * (px - cs.x) + (py - cs.y) * (py - cs.y)) > 5 then none
        else some cs := by
  rcases s with ⟨dr, la, clk, tr⟩
  simp only at hdr ha hclk
  subst hdr
  subst hclk
  cases la with
  | none => exact absurd rfl ha
  | some a => rfl

lemma runMoves_exceed (centerX centerY : ℝ) (moves : List (ℝ × ℝ)) :
    ∀ (s : GestureState) (cs : ClickStart), s.isDragging = true → s.dragLastAngle ≠ none →
      s.clickStart = some cs →
      (∃ m ∈ moves,
        5 < Real.sqrt ((m.1 - cs.x) * (m.1 - cs.x) + (m.2 - cs.y) * (m.2 - cs.y))) →
      (runMoves centerX centerY s moves).clickStart = none := by
  induction moves with
  | nil =>
      intro s cs _ _ _ hex
      simp at hex
  | cons m rest ih =>
      intro s cs hdr ha hcs hex
      obtain ⟨hd1, hd2⟩ := handlePointerMove_proj centerX centerY m.1 m.2 s hdr ha
      have hd3 := handlePointerMove_clickStart_some centerX centerY m.1 m.2 s cs hdr ha hcs
      have hstep : runMoves centerX centerY s (m :: rest)
          = runMoves centerX centerY (handlePointerMove centerX centerY m.1 m.2 s) rest := rfl
      rw [hstep]
      by_cases hgt : 5 < Real.sqrt ((m.1 - cs.x) * (m.1 - cs.x) + (m.2 - cs.y) * (m.2 - cs.y))
      · apply runMoves_clickStart_none
        rw [hd3, if_pos hgt]
      · have hcs2 : (handlePointerMove centerX centerY m.1 m.2 s).clickStart = some cs := by
          rw [hd3, if_neg hgt]
        rcases hex with ⟨p, hp, hpgt⟩
        rcases List.mem_cons.mp hp with rfl | hprest
        · exact absurd hpgt hgt
        · exact ih _ cs hd1 (by rw [hd2]; simp) hcs2 ⟨p, hprest, hpgt⟩

lemma runMoves_no_exceed (centerX centerY : ℝ) (moves : List (ℝ × ℝ)) :
    ∀ (s : GestureState) (cs : ClickStart), s.isDragging = true → s.dragLastAngle ≠ none →
      s.clickStart = some cs →
      (∀ m ∈ moves,
        ¬ 5 < Real.sqrt ((m.1 - cs.x) * (m.1 - cs.x) + (m.2 - cs.y) * (m.2 - cs.y))) →
      (runMoves centerX centerY s moves).clickStart = some cs := by
  induction moves with
  | nil =>
      intro s cs _ _ hcs _
      exact hcs
  | cons m rest ih =>
      intro s cs hdr ha hcs hall
      obtain ⟨hd1, hd2⟩ := handlePointerMove_proj centerX centerY m.1 m.2 s hdr ha
      have hd3 := handlePointerMove_clickStart_some centerX centerY m.1 m.2 s cs hdr ha hcs
      have hm := hall m (List.mem_cons_self m rest)
      have hcs2 : (handlePointerMove centerX centerY m.1 m.2 s).clickStart = some cs := by
        rw [hd3, if_neg hm]
      exact ih _ cs hd1 (by rw [hd2]; simp) hcs2
        (fun p hp => hall p (List.mem_cons_of_mem m hp))

/-- C7: during an active drag session with a recorded click start, a
pointer displacement exceeding 5 px at any move clears the click start
permanently (the click path becomes impossible for the rest of the
gesture); if no move exceeds 5 px the click start survives, keeping the
gesture eligible for the click path at pointer-up. -/
theorem click_classification_spec (centerX centerY : ℝ) (s : GestureState) (cs : ClickStart)
    (moves : List (ℝ × ℝ)) (hdrag : s.isDragging = true) (hangle : s.dragLastAngle ≠ none)
    (hcs : s.clickStart = some cs) :
    ((∃ m ∈ moves,
        5 < Real.sqrt ((m.1 - cs.x) * (m.1 - cs.x) + (m.2 - cs.y) * (m.2 - cs.y))) →
      (runMoves centerX centerY s moves).clickStart = none)
    ∧ ((∀ m ∈ moves,
        ¬ 5 < Real.sqrt ((m.1 - cs.x) * (m.1 - cs.x) + (m.2 - cs.y) * (m.2 - cs.y))) →
      (runMoves centerX centerY s moves).clickStart = some cs) :=
  ⟨runMoves_exceed centerX centerY moves s cs hdrag hangle hcs,
   runMoves_no_exceed centerX centerY moves s cs hdrag hangle hcs⟩

/-- C7 witness: a 6 px move from the gesture start clears the click
start; a 3 px move keeps it. -/
theorem click_classification_spec_witness :
    (runMoves 0 0 ⟨true, some 0, some ⟨0, 0, 0⟩, 0⟩ [(6, 0)]).clickStart = none
    ∧ (runMoves 0 0 ⟨true, some 0, some ⟨0, 0, 0⟩, 0⟩ [(3, 0)]).clickStart
        = some ⟨0, 0, 0⟩ := by
  have h6 : (5 : ℝ) < Real.sqrt (((6 : ℝ) - 0) * ((6 : ℝ) - 0) + ((0 : ℝ) - 0) * ((0 : ℝ) - 0)) := by
    rw [show ((6 : ℝ) - 0) * ((6 : ℝ) - 0) + ((0 : ℝ) - 0) * ((0 : ℝ) - 0) = 6 ^ 2 by norm_num,
      Real.sqrt_sq (by norm_num : (0 : ℝ) ≤ 6)]
    norm_num
  have h3 : ¬ (5 : ℝ) < Real.sqrt (((3 : ℝ) - 0) * ((3 : ℝ) - 0) + ((0 : ℝ) - 0) * ((0 : ℝ) - 0)) := by
    rw [show ((3 : ℝ) - 0) * ((3 : ℝ) - 0) + ((0 : ℝ) - 0) * ((0 : ℝ) - 0) = 3 ^ 2 by norm_num,
      Real.sqrt_sq (by norm_num : (0 : ℝ) ≤ 3)]
    norm_num
  constructor
  · exact (click_classification_spec 0 0 ⟨true, some 0, some ⟨0, 0, 0⟩, 0⟩ ⟨0, 0, 0⟩
      [(6, 0)] rfl (by simp) rfl).1 ⟨(6, 0), by simp, h6⟩
  · exact (click_classification_spec 0 0 ⟨true, some 0, some ⟨0, 0, 0⟩, 0⟩ ⟨0, 0, 0⟩
      [(3, 0)] rfl (by simp) rfl).2
      (fun m hm => by
        rw [List.mem_singleton] at hm
        subst hm
        exact h3)

/-! ## Claim C9 -/

/-- C9: on pointer-up of an active gesture with a recorded click start,
the click path is taken only when the dial is visible (one of
`isHovered`, `isSelectedCircleHovered`, `showRingAfterStart`); when the
dial is not visible the release falls through to the drag path and snaps
`targetRotation` to the nearest multiple of `anglePerItem`; the session
always ends with dragging off and the click start cleared. -/
theorem pointer_up_visibility_gate (api : ℝ) (s : GestureState) (cs : ClickStart)
    (h sc sr : Bool) (hdrag : s.isDragging = true) (hcs : s.clickStart = some cs) :
    ((h || sc || sr) = false →
      (handlePointerUp h sc sr api s).targetRotation
        = ((round (s.targetRotation / api) : ℤ) : ℝ) * api)
    ∧ ((h || sc || sr) = true →
      (handlePointerUp h sc sr api s).targetRotation
        = s.targetRotation + clickDiff s.targetRotation cs.index api)
    ∧ (handlePointerUp h sc sr api s).isDragging = false
    ∧ (handlePointerUp h sc sr api s).clickStart = none := by
  refine ⟨?_, ?_, ?_, ?_⟩
  · intro hvis
    simp only [handlePointerUp, hdrag, hcs, hvis, Bool.true_eq_false, Bool.false_eq_true,
      if_false]
  · intro hvis
    simp only [handlePointerUp, hdrag, hcs, hvis, Bool.true_eq_false, if_false, if_true]
  · simp only [handlePointerUp, hdrag, hcs, Bool.true_eq_false, if_false]
  · simp only [handlePointerUp, hdrag, hcs, Bool.true_eq_false, if_false]

/-- C9 witness: a sub-threshold release with the dial hidden snaps to the
nearest item multiple; the same release with the dial visible rotates to
the clicked item. -/
theorem pointer_up_visibility_gate_witness :
    (handlePointerUp false false false 1 ⟨true, some 0, some ⟨0, 0, 2⟩, 0⟩).targetRotation
      = ((round ((0 : ℝ) / 1) : ℤ) : ℝ) * 1
    ∧ (handlePointerUp true false false 1 ⟨true, some 0, some ⟨0, 0, 2⟩, 0⟩).targetRotation
      = 0 + clickDiff 0 2 1 :=
  ⟨(pointer_up_visibility_gate 1 ⟨true, some 0, some ⟨0, 0, 2⟩, 0⟩ ⟨0, 0, 2⟩
      false false false rfl rfl).1 rfl,
   (pointer_up_visibility_gate 1 ⟨true, some 0, some ⟨0, 0, 2⟩, 0⟩ ⟨0, 0, 2⟩
      true false false rfl rfl).2.1 rfl⟩

end DreamJourney
